import Mathlib

/-!
# miles: `Options.Choose` and `buildPrompt`

A shallow embedding of `miles.go`.

* Go strings are lists of characters (`Str`).
* `strings.ToLower` / `strings.ToUpper` map a per-character table over the
  string; the tables `unicode.ToLower` / `unicode.ToUpper` belong to the Go
  library and are taken as a parameter (`CaseTable`).  `asciiCase` is the
  restriction of the tables to ASCII letters, used for concrete evaluations.
* `bufio.Scanner` over `From` is a stream of scan outcomes: the `i`-th call
  of `s.Scan()` followed by `s.Err()` / `s.Text()` either yields a line or a
  non-nil error.  An exhausted input yields the empty line with a nil error
  on every further call (`ofLines`).
* An `io.Writer` is a buffer of accepted text together with the error its
  `Write` returns, if it is a failing writer.
* What the scanner takes from `From` itself is followed, for a `From` made
  by `strings.NewReader`, by a model of `bufio.Scanner` with its buffer
  (`Scanner`, `scanOutcomes`, `fromAfter`).
-/

namespace Miles

/-- Go `string`, as a list of characters. -/
abbrev Str := List Char

/-- The character tables behind `strings.ToLower` and `strings.ToUpper`. -/
structure CaseTable where
  lower : Char → Char
  upper : Char → Char

/-- The case tables restricted to ASCII letters. -/
def asciiCase : CaseTable where
  lower := fun c => if 65 ≤ c.toNat ∧ c.toNat ≤ 90 then Char.ofNat (c.toNat + 32) else c
  upper := fun c => if 97 ≤ c.toNat ∧ c.toNat ≤ 122 then Char.ofNat (c.toNat - 32) else c

/-- Go `strings.ToLower`. -/
def ToLower (cm : CaseTable) (s : Str) : Str := s.map cm.lower

/-- Go `strings.ToUpper`. -/
def ToUpper (cm : CaseTable) (s : Str) : Str := s.map cm.upper

/-- Go `strings.TrimLeft`: drop the leading characters contained in `cutset`. -/
def TrimLeft (s cutset : Str) : Str := s.dropWhile (fun c => decide (c ∈ cutset))

/-- Go `strings.TrimRight`: drop the trailing characters contained in `cutset`. -/
def TrimRight (s cutset : Str) : Str :=
  (s.reverse.dropWhile (fun c => decide (c ∈ cutset))).reverse

/-- Go `strings.Trim`. -/
def Trim (s cutset : Str) : Str := TrimLeft (TrimRight s cutset) cutset

/-- The cutset `" \n"` used by `Choose`. -/
def cutset : Str := [' ', '\n']

/-- Go `error` values seen by `Choose`: the two package errors and the errors
of the underlying streams. -/
inductive GoError where
  | errNilFrom
  | errGiveUp
  | stream (id : Nat)
  deriving DecidableEq, Repr

/-- The outcome of one `s.Scan()`: the text of the line, or the non-nil error
reported by `s.Err()`. -/
inductive ScanResult where
  | line (text : Str)
  | fail (e : GoError)
  deriving DecidableEq, Repr

/-- An `io.Reader` as seen through `bufio.Scanner`: the outcome of the `i`-th
scan, counted from zero. -/
abbrev Reader := Nat → ScanResult

/-- A reader holding finitely many scan outcomes; once they are consumed every
further scan yields the empty line and no error, as `bufio.Scanner` does at
the end of the input. -/
def ofLines (ls : List ScanResult) : Reader := fun i => ls.getD i (ScanResult.line [])

/-- An `io.Writer`: the text it has accepted, and the error its `Write`
returns when it is a failing writer. -/
structure Writer where
  buf : Str
  err : Option GoError
  deriving DecidableEq, Repr

/-- Go `fmt.Fprint(w, s)`: the writer afterwards and the error returned. -/
def Fprint (w : Writer) (s : Str) : Writer × Option GoError :=
  match w.err with
  | some e => (w, some e)
  | none => ({ w with buf := w.buf ++ s }, none)

/-- The `Options` struct. -/
structure Options where
  From : Option Reader
  To : Option Writer
  Prompt : Str
  Allowed : List Str
  Default : Str
  AllowEmpty : Bool
  MaxAttempts : Int

/-- The loop of `buildPrompt` over `allowed`, carrying `options` and `sep`. -/
def buildOptions (cm : CaseTable) (def_ : Str) : Str → Str → List Str → Str
  | options, _, [] => options
  | options, sep, v :: rest =>
    let v := if v = def_ then ToUpper cm v else ToLower cm v
    buildOptions cm def_ (options ++ sep ++ v) ['/'] rest

/-- The function `buildPrompt`. -/
def buildPrompt (cm : CaseTable) (prompt def_ : Str) (allowed : List Str) : Str :=
  prompt ++ [' ', '['] ++ buildOptions cm def_ [] [] allowed ++ [']', ':', ' ']

/-- The loop `for _, v := range o.Allowed` of `Choose`: whether it returns. -/
def rangeAllowed (ans : Str) : List Str → Bool
  | [] => false
  | v :: rest => if ans = v then true else rangeAllowed ans rest

/-- What a call of `Choose` leaves behind: the two returned values, the number
of `s.Scan()` calls made, and the writer `to` (here `out`) after the call. -/
structure Outcome where
  ans : Str
  err : Option GoError
  reads : Nat
  out : Writer
  deriving DecidableEq, Repr

/-- Lines 91-93 of `Choose`: print the prompt when `Prompt` is not empty.  The
values returned by `fmt.Fprint` are dropped, as in the source. -/
def writePrompt (cm : CaseTable) (o : Options) (to_ : Writer) : Writer :=
  if o.Prompt ≠ [] then (Fprint to_ (buildPrompt cm o.Prompt o.Default o.Allowed)).1 else to_

/-- The `for` loop of `Choose`.  `fuel` bounds the number of passes; `pos` is
the number of scans made so far. -/
def chooseLoop (cm : CaseTable) (o : Options) (maxAttempts : Int) (s : Reader) :
    Nat → Int → Nat → Writer → Option Outcome
  | 0, _, _, _ => none
  | fuel + 1, attempts, pos, to_ =>
    let to_ := writePrompt cm o to_
    match s pos with
    | ScanResult.fail err => some ⟨[], some err, pos + 1, to_⟩
    | ScanResult.line text =>
      let ans := ToLower cm (Trim text cutset)
      if ans = [] ∧ (o.AllowEmpty = true ∨ o.Default ≠ []) then
        some ⟨o.Default, none, pos + 1, to_⟩
      else if rangeAllowed ans o.Allowed = true then
        some ⟨ans, none, pos + 1, to_⟩
      else
        let attempts := attempts + 1
        if attempts ≥ maxAttempts then
          some ⟨[], some GoError.errGiveUp, pos + 1, to_⟩
        else
          chooseLoop cm o maxAttempts s fuel attempts (pos + 1) to_

/-- The method `Options.Choose`.  `stdout` is `os.Stdout`, used when `To` is
nil.  The loop is given `maxAttempts` passes; the result is `none` only if
that were not enough for it to return. -/
def Choose (cm : CaseTable) (stdout : Writer) (o : Options) : Option Outcome :=
  match o.From with
  | none => some ⟨[], some GoError.errNilFrom, 0, o.To.getD stdout⟩
  | some from_ =>
    let maxAttempts := if o.MaxAttempts < 1 then 5 else o.MaxAttempts
    let to_ := o.To.getD stdout
    chooseLoop cm o maxAttempts from_ maxAttempts.toNat 0 0 to_

/-! ## Vocabulary of the specification -/

/-- The effective attempt limit `N`: `MaxAttempts` when it is at least 1, and
5 otherwise. -/
def attemptLimit (o : Options) : Nat :=
  if 1 ≤ o.MaxAttempts then o.MaxAttempts.toNat else 5

/-- Two strings are equal when letter case is ignored. -/
def eqIgnoreCase (cm : CaseTable) (a b : Str) : Prop := ToLower cm a = ToLower cm b

instance (cm : CaseTable) (a b : Str) : Decidable (eqIgnoreCase cm a b) := by
  unfold eqIgnoreCase; infer_instance

/-- A line is blank: nothing is left of it after trimming. -/
def blank (text : Str) : Prop := Trim text cutset = []

instance (text : Str) : Decidable (blank text) := by
  unfold blank; infer_instance

/-- A line is invalid: its trimmed, lowercased text is no entry of `Allowed`. -/
def invalid (cm : CaseTable) (o : Options) (text : Str) : Prop :=
  ToLower cm (Trim text cutset) ∉ o.Allowed

instance (cm : CaseTable) (o : Options) (text : Str) : Decidable (invalid cm o text) := by
  unfold invalid; infer_instance

/-- The empty `bytes.Buffer`. -/
def emptyBuffer : Writer := ⟨[], none⟩

/-- The writer `errWriter` of the tests: every `Write` fails with `errWrite`. -/
def errWriter : Writer := ⟨[], some (GoError.stream 1)⟩

/-- The reader `strings.NewReader` of a text given by its lines. -/
def newReader (ls : List Str) : Reader := ofLines (ls.map ScanResult.line)

/-- The prompt as the specification words it: an entry is uppercased when
`Default` is not empty and the entry equals it with case ignored, lowercased
otherwise; the entries are joined by `/`. -/
def promptIgnoringCase (cm : CaseTable) (prompt def_ : Str) (allowed : List Str) : Str :=
  prompt ++ [' ', '['] ++
    List.intercalate ['/']
      (allowed.map fun v =>
        if def_ ≠ [] ∧ eqIgnoreCase cm v def_ then ToUpper cm v else ToLower cm v) ++
    [']', ':', ' ']

/-! ## `bufio.Scanner` over a `strings.Reader`

`Choose` makes a new `bufio.Scanner` for `From` at each call (line 89).  The
scanner fills a buffer from `From` and cuts lines out of it, so what it has
taken from `From` can run ahead of the lines it has handed out.  This section
follows the library code for a `From` made by `strings.NewReader`; a byte is a
character of the `Str`. -/

/-- Go `strings.Reader`: the string `s` and the index `i` of the next byte to
read. -/
structure StringsReader where
  s : Str
  i : Nat
  deriving DecidableEq, Repr

/-- Go `strings.NewReader`. -/
def stringsNewReader (s : Str) : StringsReader := ⟨s, 0⟩

/-- Go `(*strings.Reader).Read` into a slice of `room` bytes: the bytes
copied, whether `io.EOF` is returned, and the reader afterwards. -/
def StringsReader.Read (r : StringsReader) (room : Nat) : Str × Bool × StringsReader :=
  if r.i ≥ r.s.length then ([], true, r)
  else
    let b := (r.s.drop r.i).take room
    (b, false, { r with i := r.i + b.length })

/-- The errors a `bufio.Scanner` over a `strings.Reader` can hold in `s.err`. -/
inductive ScanErr where
  | eof
  | tooLong
  deriving DecidableEq, Repr

/-- Go `bufio.Scanner`: the reader, `len(s.buf)`, `s.start`, the buffered
bytes `s.buf[s.start:s.end]`, `s.err` and `s.token`. -/
structure Scanner where
  r : StringsReader
  bufLen : Nat
  start : Nat
  held : Str
  err : Option ScanErr
  token : Str
  deriving DecidableEq, Repr

/-- Go `bufio.NewScanner`. -/
def NewScanner (r : StringsReader) : Scanner := ⟨r, 0, 0, [], none, []⟩

/-- The constant `bufio.MaxScanTokenSize`. -/
def MaxScanTokenSize : Nat := 64 * 1024

/-- The constant `startBufSize` of `bufio`. -/
def startBufSize : Nat := 4096

/-- The helper `dropCR` of `bufio`. -/
def dropCR (data : Str) : Str :=
  if data.getLast? = some '\r' then data.dropLast else data

/-- Go `bufio.ScanLines`: how far to advance, and the token if there is one. -/
def ScanLines (data : Str) (atEOF : Bool) : Nat × Option Str :=
  if atEOF = true ∧ data = [] then (0, none)
  else if '\n' ∈ data then
    (data.indexOf '\n' + 1, some (dropCR (data.take (data.indexOf '\n'))))
  else if atEOF = true then (data.length, some (dropCR data))
  else (0, none)

/-- The first part of a pass of the loop of `Scan`: see whether the bytes held
give a token.  Returns the scanner and whether a token was found. -/
def Scanner.trySplit (s : Scanner) : Scanner × Bool :=
  if s.held ≠ [] ∨ s.err ≠ none then
    match ScanLines s.held (decide (s.err ≠ none)) with
    | (advance, some token) =>
      ({ s with start := s.start + advance, held := s.held.drop advance, token := token }, true)
    | (advance, none) =>
      ({ s with start := s.start + advance, held := s.held.drop advance, token := [] }, false)
  else (s, false)

/-- In `Scan`: shift the held bytes to the front of the buffer when there is
much empty space or space is needed. -/
def Scanner.shift (s : Scanner) : Scanner :=
  if s.start > 0 ∧ (s.start + s.held.length = s.bufLen ∨ s.start > s.bufLen / 2) then
    { s with start := 0 }
  else s

/-- In `Scan`: double a full buffer, from `startBufSize` and up to
`MaxScanTokenSize`. -/
def Scanner.grow (s : Scanner) : Scanner :=
  if s.start + s.held.length = s.bufLen then
    { s with
      bufLen := min (if s.bufLen * 2 = 0 then startBufSize else s.bufLen * 2) MaxScanTokenSize
      start := 0 }
  else s

/-- In `Scan`: read from the reader into the free end of the buffer.  A
`strings.Reader` hands over at least one byte or reports `io.EOF`, so the
inner loop against empty reads makes one pass. -/
def Scanner.readMore (s : Scanner) : Scanner :=
  match s.r.Read (s.bufLen - (s.start + s.held.length)) with
  | (b, true, r) => { s with r := r, held := s.held ++ b, err := some ScanErr.eof }
  | (b, false, r) => { s with r := r, held := s.held ++ b }

/-- The last part of a pass of the loop of `Scan`: shift, then stop with
`ErrTooLong` when the buffer is full at its largest size, else grow and read.
Returns the scanner and whether `Scan` stops. -/
def Scanner.fill (s : Scanner) : Scanner × Bool :=
  if s.shift.start + s.shift.held.length = s.shift.bufLen ∧
      s.shift.bufLen ≥ MaxScanTokenSize then
    ({ s.shift with err := some ScanErr.tooLong }, true)
  else (s.shift.grow.readMore, false)

/-- The loop of `(*Scanner).Scan`, bounded by `fuel` passes: the value
returned and the scanner afterwards. -/
def Scanner.scanLoop : Nat → Scanner → Option (Bool × Scanner)
  | 0, _ => none
  | fuel + 1, s =>
    match s.trySplit with
    | (s, true) => some (true, s)
    | (s, false) =>
      if s.err ≠ none then some (false, { s with start := 0, held := [] })
      else
        match s.fill with
        | (s, true) => some (false, s)
        | (s, false) => Scanner.scanLoop fuel s

/-- Go `(*Scanner).Scan`.  Each pass that does not return takes at least one
byte from the reader or meets its end, so the bytes left and two more bound
the passes. -/
def Scanner.Scan (s : Scanner) : Option (Bool × Scanner) :=
  Scanner.scanLoop (s.r.s.length - s.r.i + 2) s

/-- The scanner made by `bufio.NewScanner(r)` after `n` calls of `Scan`. -/
def scannerAfter (r : StringsReader) : Nat → Option Scanner
  | 0 => some (NewScanner r)
  | n + 1 =>
    match scannerAfter r n with
    | none => none
    | some s =>
      match s.Scan with
      | none => none
      | some (_, s) => some s

/-- The error `bufio.ErrTooLong`, as a stream error. -/
def ErrTooLong : GoError := GoError.stream 3

/-- What `Choose` sees of `bufio.NewScanner(r)`: after the scan number `i`,
`s.Err()` if it is not nil (it is nil for `io.EOF`), and `s.Text()` otherwise. -/
def scanOutcomes (r : StringsReader) : Reader := fun i =>
  match scannerAfter r (i + 1) with
  | some s => if s.err = some ScanErr.tooLong then ScanResult.fail ErrTooLong
    else ScanResult.line s.token
  | none => ScanResult.fail ErrTooLong

/-- The reader `From` once `n` scans are made on it. -/
def fromAfter (r : StringsReader) (n : Nat) : Option StringsReader :=
  (scannerAfter r n).map fun s => s.r

/-! ## Concrete calls -/

/-- `Options{From: strings.NewReader("A"), Allowed: []string{"A"}}`. -/
def optUpperEntry : Options :=
  ⟨some (newReader ["A".toList]), none, [], ["A".toList], [], false, 0⟩

/-- `Options{From: strings.NewReader(""), Default: "A"}`. -/
def optUpperDefault : Options :=
  ⟨some (newReader []), none, [], [], "A".toList, false, 0⟩

/-- `Options{From: strings.NewReader("a"), To: errWriter{}, Prompt: "PROMPT",
Allowed: []string{"a"}}`. -/
def optErrWriter : Options :=
  ⟨some (newReader ["a".toList]), some errWriter, "PROMPT".toList, ["a".toList], [], false, 0⟩

/-- The test "give up for wrong input even if default is provided and empty
allowed". -/
def optGiveUp : Options :=
  ⟨some (newReader ["x".toList, "x".toList, "x".toList, "a".toList]), none, [],
    ["a".toList], "a".toList, true, 2⟩

/-- A default behind one wrong answer: `Options{From: strings.NewReader("x\n  "),
Allowed: []string{"", "a"}, Default: "a", MaxAttempts: 2}`. -/
def optBlankSecond : Options :=
  ⟨some (newReader ["x".toList, "  ".toList]), none, [], [[], "a".toList], "a".toList, false, 2⟩

/-- The test "custom max attempts". -/
def optSeventh : Options :=
  ⟨some (newReader ["x".toList, "x".toList, "x".toList, "x".toList, "x".toList, "x".toList,
      "a".toList]), none, [], ["a".toList], [], false, 7⟩

/-- The test "nil reader", with a prompt and a buffer to write to. -/
def optNilFrom : Options :=
  ⟨none, some emptyBuffer, "PROMPT".toList, ["a".toList], "a".toList, true, 3⟩

/-- A reader that fails at its second scan with `errRead`. -/
def optReadError : Options :=
  ⟨some (ofLines [ScanResult.line "x".toList, ScanResult.fail (GoError.stream 2)]), none, [],
    ["a".toList], [], false, 0⟩

/-- The test "options appended to prompt". -/
def optWithPrompt : Options :=
  ⟨some (newReader ["x".toList, "a".toList]), some emptyBuffer, "PROMPT".toList,
    ["a".toList, "b".toList], "a".toList, false, 0⟩

/-- The test "allowed empty". -/
def optAllowEmpty : Options :=
  ⟨some (newReader []), none, [], [], [], true, 0⟩

/-- `Options{From: strings.NewReader(""), Allowed: []string{"a"}, Default: "a",
AllowEmpty: true}`. -/
def optAllowEmptyDefault : Options :=
  ⟨some (newReader []), none, [], ["a".toList], "a".toList, true, 0⟩

/-- The test "empty not allowed": three empty lines, `MaxAttempts: 2`. -/
def optEmptyNotAllowed : Options :=
  ⟨some (newReader [[], [], []]), none, [], [], [], false, 2⟩

/-- `Options{From: strings.NewReader(""), Allowed: []string{""}}`. -/
def optEmptyEntry : Options :=
  ⟨some (newReader []), none, [], [[]], [], false, 0⟩

/-- `Options{From: strings.NewReader("\nfoo\nbar"), Default: "a"}`, read
through the scanner over the bytes of `From`. -/
def optReadAhead : Options :=
  ⟨some (scanOutcomes (stringsNewReader "\nfoo\nbar".toList)), none, [], [], "a".toList, false, 0⟩

/-- The test "options appended to prompt" with `To: errWriter{}`. -/
def optErrWriterRetry : Options :=
  ⟨some (newReader ["x".toList, "a".toList]), some errWriter, "PROMPT".toList,
    ["a".toList, "b".toList], "a".toList, false, 0⟩

/-- A reader whose first read fails with the error value `errGiveUp`. -/
def optReaderGivesUp : Options :=
  ⟨some (ofLines [ScanResult.fail GoError.errGiveUp]), none, [], ["a".toList], [], false, 0⟩

/-! ## Auxiliary facts -/

theorem ToLower_eq_nil (cm : CaseTable) (s : Str) : ToLower cm s = [] ↔ s = [] := by
  simp [ToLower]

theorem rangeAllowed_iff (ans : Str) (l : List Str) : rangeAllowed ans l = true ↔ ans ∈ l := by
  induction l with
  | nil => simp [rangeAllowed]
  | cons v rest ih =>
    by_cases h : ans = v
    · simp [rangeAllowed, h]
    · simp [rangeAllowed, h, ih]

/-- A line that sends the loop into its next pass. -/
def rejected (cm : CaseTable) (o : Options) (text : Str) : Prop :=
  ¬ (ToLower cm (Trim text cutset) = [] ∧ (o.AllowEmpty = true ∨ o.Default ≠ [])) ∧
    rangeAllowed (ToLower cm (Trim text cutset)) o.Allowed = false

theorem rejected_of_invalid (cm : CaseTable) (o : Options) (text : Str)
    (hb : ¬ blank text) (hi : invalid cm o text) : rejected cm o text := by
  refine ⟨fun h => hb ((ToLower_eq_nil cm _).1 h.1), ?_⟩
  cases hr : rangeAllowed (ToLower cm (Trim text cutset)) o.Allowed with
  | false => rfl
  | true => exact absurd ((rangeAllowed_iff _ _).1 hr) hi

/-- One pass over a rejected line below the limit. -/
theorem chooseLoop_step (cm : CaseTable) (o : Options) (M : Int) (s : Reader)
    (fuel : Nat) (a : Int) (pos : Nat) (w : Writer) (text : Str)
    (hs : s pos = ScanResult.line text) (hr : rejected cm o text) (ha : a + 1 < M) :
    chooseLoop cm o M s (fuel + 1) a pos w =
      chooseLoop cm o M s fuel (a + 1) (pos + 1) (writePrompt cm o w) := by
  obtain ⟨h1, h2⟩ := hr
  have h3 : ¬ (a + 1 ≥ M) := not_le.mpr ha
  simp only [chooseLoop, hs, h1, h2, h3, if_false, Bool.false_eq_true]

/-- The loop passes over `j` rejected lines. -/
theorem chooseLoop_skip (cm : CaseTable) (o : Options) (M : Int) (s : Reader) (j : Nat) :
    ∀ (fuel : Nat) (a : Int) (pos : Nat) (w : Writer),
      (∀ i, i < j → ∃ text, s (pos + i) = ScanResult.line text ∧ rejected cm o text) →
      a + j < M →
      chooseLoop cm o M s (fuel + j) a pos w =
        chooseLoop cm o M s fuel (a + j) (pos + j) ((writePrompt cm o)^[j] w) := by
  induction j with
  | zero => intro fuel a pos w _ _; simp
  | succ j ih =>
    intro fuel a pos w hl ha
    obtain ⟨text, hs, hr⟩ := hl 0 (Nat.succ_pos j)
    have ha1 : a + 1 < M := by push_cast at ha; omega
    have e1 : fuel + (j + 1) = (fuel + j) + 1 := by omega
    rw [e1, chooseLoop_step cm o M s (fuel + j) a pos w text (by simpa using hs) hr ha1]
    rw [ih fuel (a + 1) (pos + 1) (writePrompt cm o w)
      (fun i hi => by
        obtain ⟨t, ht, hrt⟩ := hl (i + 1) (by omega)
        exact ⟨t, by rw [← ht]; congr 1; omega, hrt⟩)
      (by push_cast at ha ⊢; omega)]
    have e2 : a + 1 + (j : Int) = a + ((j + 1 : Nat) : Int) := by push_cast; ring
    have e3 : pos + 1 + j = pos + (j + 1) := by omega
    rw [e2, e3, Function.iterate_succ_apply]

theorem attemptLimit_pos (o : Options) : 1 ≤ attemptLimit o := by
  unfold attemptLimit
  split <;> omega

theorem attemptLimit_cast (o : Options) :
    (if o.MaxAttempts < 1 then (5 : Int) else o.MaxAttempts) = (attemptLimit o : Int) := by
  unfold attemptLimit
  by_cases h : o.MaxAttempts < 1
  · have h2 : ¬ (1 ≤ o.MaxAttempts) := by omega
    simp [h, h2]
  · have h2 : 1 ≤ o.MaxAttempts := by omega
    simp only [h, h2, if_true, if_false]
    omega

/-- `Choose` with a reader, in terms of the loop and the effective limit. -/
theorem Choose_eq_loop (cm : CaseTable) (stdout : Writer) (o : Options) (r : Reader)
    (hfrom : o.From = some r) :
    Choose cm stdout o =
      chooseLoop cm o (attemptLimit o) r (attemptLimit o) 0 0 (o.To.getD stdout) := by
  unfold Choose
  simp only [hfrom, attemptLimit_cast, Int.toNat_ofNat]

/-- `Choose` reaches its `k`-th pass when the `k - 1` lines before are rejected. -/
theorem Choose_reach (cm : CaseTable) (stdout : Writer) (o : Options) (r : Reader)
    (hfrom : o.From = some r) (k : Nat) (hk1 : 1 ≤ k) (hkN : k ≤ attemptLimit o)
    (hprev : ∀ i, i < k - 1 → ∃ text, r i = ScanResult.line text ∧ rejected cm o text) :
    Choose cm stdout o =
      chooseLoop cm o (attemptLimit o) r (attemptLimit o - k + 1) ((k - 1 : Nat) : Int) (k - 1)
        ((writePrompt cm o)^[k - 1] (o.To.getD stdout)) := by
  rw [Choose_eq_loop cm stdout o r hfrom]
  have key : ∀ F : Nat, F = (attemptLimit o - k + 1) + (k - 1) →
      chooseLoop cm o (attemptLimit o) r F 0 0 (o.To.getD stdout) =
        chooseLoop cm o (attemptLimit o) r (attemptLimit o - k + 1) ((k - 1 : Nat) : Int) (k - 1)
          ((writePrompt cm o)^[k - 1] (o.To.getD stdout)) := by
    intro F hF
    rw [hF, chooseLoop_skip cm o (attemptLimit o) r (k - 1) (attemptLimit o - k + 1) 0 0 _
      (fun i hi => by simpa using hprev i hi) (by omega)]
    simp
  exact key _ (by omega)

/-- The last pass of the loop, unfolded. -/
theorem chooseLoop_succ (cm : CaseTable) (o : Options) (M : Int) (s : Reader)
    (fuel : Nat) (a : Int) (pos : Nat) (w : Writer) :
    chooseLoop cm o M s (fuel + 1) a pos w =
      match s pos with
      | ScanResult.fail err => some ⟨[], some err, pos + 1, writePrompt cm o w⟩
      | ScanResult.line text =>
        if ToLower cm (Trim text cutset) = [] ∧ (o.AllowEmpty = true ∨ o.Default ≠ []) then
          some ⟨o.Default, none, pos + 1, writePrompt cm o w⟩
        else if rangeAllowed (ToLower cm (Trim text cutset)) o.Allowed = true then
          some ⟨ToLower cm (Trim text cutset), none, pos + 1, writePrompt cm o w⟩
        else if a + 1 ≥ M then
          some ⟨[], some GoError.errGiveUp, pos + 1, writePrompt cm o w⟩
        else
          chooseLoop cm o M s fuel (a + 1) (pos + 1) (writePrompt cm o w) := by
  simp only [chooseLoop]

/-- With an idempotent lowercase table, a line that equals no entry when case
is ignored is invalid. -/
theorem invalid_of_not_eqIgnoreCase (cm : CaseTable)
    (hidem : ∀ c, cm.lower (cm.lower c) = cm.lower c) (o : Options) (text : Str)
    (h : ∀ v, v ∈ o.Allowed → ¬ eqIgnoreCase cm (Trim text cutset) v) : invalid cm o text := by
  intro hmem
  apply h _ hmem
  unfold eqIgnoreCase ToLower
  rw [List.map_map]
  apply List.map_congr_left
  intro c _
  exact (hidem c).symm

/-- The loop returns within the passes left, having printed once per scan. -/
theorem chooseLoop_spec (cm : CaseTable) (o : Options) (M : Int) (s : Reader) :
    ∀ (fuel : Nat) (a : Int) (pos : Nat) (w : Writer), a < M → (M - a).toNat ≤ fuel →
      ∃ out, chooseLoop cm o M s fuel a pos w = some out ∧ pos < out.reads ∧
        out.reads ≤ pos + (M - a).toNat ∧
        out.out = (writePrompt cm o)^[out.reads - pos] w := by
  intro fuel
  induction fuel with
  | zero => intro a pos w ha hf; omega
  | succ fuel ih =>
    intro a pos w ha hf
    have hpos : 1 ≤ (M - a).toNat := by omega
    rw [chooseLoop_succ]
    cases hs : s pos with
    | fail err => exact ⟨_, rfl, by simp, by simp; omega, by simp⟩
    | line text =>
      simp only []
      split_ifs with h1 h2 h3
      · exact ⟨_, rfl, by simp, by simp; omega, by simp⟩
      · exact ⟨_, rfl, by simp, by simp; omega, by simp⟩
      · exact ⟨_, rfl, by simp, by simp; omega, by simp⟩
      · obtain ⟨out, ho, hlt, hle, hout⟩ :=
          ih (a + 1) (pos + 1) (writePrompt cm o w) (by omega) (by omega)
        refine ⟨out, ho, by omega, by omega, ?_⟩
        have e : out.reads - pos = (out.reads - (pos + 1)) + 1 := by omega
        rw [hout, e, Function.iterate_succ_apply]

/-- What `k` prompts leave in a writer that accepts them. -/
theorem writePrompt_iterate (cm : CaseTable) (o : Options) (hprompt : o.Prompt ≠ []) (k : Nat) :
    ∀ w : Writer, w.err = none →
      (writePrompt cm o)^[k] w =
        ⟨w.buf ++ (List.replicate k (buildPrompt cm o.Prompt o.Default o.Allowed)).flatten, none⟩ := by
  induction k with
  | zero => intro w hw; cases w; simp_all
  | succ k ih =>
    intro w hw
    have h1 : writePrompt cm o w =
        ⟨w.buf ++ buildPrompt cm o.Prompt o.Default o.Allowed, none⟩ := by
      simp [writePrompt, hprompt, Fprint, hw]
    rw [Function.iterate_succ_apply, h1, ih _ rfl]
    simp [List.replicate_succ]

theorem toNat_ofNat_of_lt (n : Nat) (h : n < 55296) : (Char.ofNat n).toNat = n := by
  have hv : n.isValidChar := Or.inl h
  unfold Char.ofNat
  rw [dif_pos hv]
  rfl

/-- A reader made of lines yields a line at every scan. -/
theorem newReader_apply (ls : List Str) (i : Nat) :
    newReader ls i = ScanResult.line (ls.getD i []) := by
  unfold newReader ofLines
  induction ls generalizing i with
  | nil => simp
  | cons l rest ih =>
    cases i with
    | zero => simp
    | succ i => simp

/-- Past its last line a finite reader yields the empty line. -/
theorem ofLines_exhausted (ls : List ScanResult) (i : Nat) (h : ls.length ≤ i) :
    ofLines ls i = ScanResult.line [] := by
  unfold ofLines
  simp [List.getD, List.getElem?_eq_none h]

theorem dropWhile_agree (p q : Char → Bool) (l : Str) (h : ∀ c, c ∈ l → p c = q c) :
    l.dropWhile p = l.dropWhile q := by
  induction l with
  | nil => rfl
  | cons c rest ih =>
    have hc : p c = q c := h c (List.mem_cons_self c rest)
    simp only [List.dropWhile_cons, hc]
    split
    · exact ih (fun d hd => h d (List.mem_cons_of_mem c hd))
    · rfl

theorem mem_of_mem_dropWhile (p : Char → Bool) (l : Str) (c : Char)
    (h : c ∈ l.dropWhile p) : c ∈ l :=
  (List.dropWhile_sublist p).subset h

/-- A scanned line holds no newline, and on such a line trimming the cutset
of `Choose` is trimming spaces. -/
theorem Trim_cutset_eq_spaces (text : Str) (h : '\n' ∉ text) :
    Trim text cutset = Trim text [' '] := by
  have key : ∀ l : Str, '\n' ∉ l → ∀ c, c ∈ l →
      decide (c ∈ cutset) = decide (c ∈ [' ']) := by
    intro l hl c hc
    have hne : c ≠ '\n' := fun e => hl (e ▸ hc)
    simp [cutset, hne]
  have hr : TrimRight text cutset = TrimRight text [' '] := by
    unfold TrimRight
    rw [dropWhile_agree _ _ text.reverse (key text.reverse (by simpa using h))]
  have hmem : '\n' ∉ TrimRight text [' '] := by
    intro hc
    unfold TrimRight at hc
    rw [List.mem_reverse] at hc
    exact h (List.mem_reverse.1 (mem_of_mem_dropWhile _ _ _ hc))
  unfold Trim
  rw [hr]
  unfold TrimLeft
  exact dropWhile_agree _ _ _ (key _ hmem)

/-- The empty line is blank. -/
theorem blank_nil : blank [] := by
  decide

/-- A line of spaces is blank. -/
theorem blank_spaces (n : Nat) : blank (List.replicate n ' ') := by
  have h1 : ∀ m : Nat, (List.replicate m ' ').dropWhile (fun c => decide (c ∈ cutset)) = [] := by
    intro m
    induction m with
    | zero => rfl
    | succ m ih => simp [List.replicate_succ, cutset]
  unfold blank Trim TrimRight TrimLeft
  rw [List.reverse_replicate, h1]
  rfl

/-- The ASCII lowercase table is idempotent. -/
theorem asciiCase_lower_idem (c : Char) :
    asciiCase.lower (asciiCase.lower c) = asciiCase.lower c := by
  simp only [asciiCase]
  by_cases h : 65 ≤ c.toNat ∧ c.toNat ≤ 90
  · have hv : (Char.ofNat (c.toNat + 32)).toNat = c.toNat + 32 :=
      toNat_ofNat_of_lt _ (by omega)
    have h2 : ¬ (65 ≤ c.toNat + 32 ∧ c.toNat + 32 ≤ 90) := by omega
    rw [if_pos h, hv, if_neg h2]
  · rw [if_neg h, if_neg h]

/-- The transformation `buildPrompt` applies to one entry. -/
theorem buildOptions_slash (cm : CaseTable) (def_ : Str) (l : List Str) :
    ∀ acc : Str, buildOptions cm def_ acc ['/'] l =
      acc ++ (l.map fun v => '/' :: (if v = def_ then ToUpper cm v else ToLower cm v)).flatten := by
  induction l with
  | nil => intro acc; simp [buildOptions]
  | cons v rest ih =>
    intro acc
    simp only [buildOptions, ih, List.map_cons, List.flatten_cons]
    simp

theorem intercalate_slash (x : Str) (xs : List Str) :
    List.intercalate ['/'] (x :: xs) = x ++ (xs.map fun v => '/' :: v).flatten := by
  induction xs generalizing x with
  | nil => simp [List.intercalate, List.intersperse]
  | cons y ys ih =>
    have h := ih y
    simp only [List.intercalate] at h ⊢
    simp only [List.intersperse, List.flatten_cons, h, List.map_cons]
    simp

/-- The loop of `buildPrompt` joins the transformed entries with `/`. -/
theorem buildOptions_eq_intercalate (cm : CaseTable) (def_ : Str) (l : List Str) :
    buildOptions cm def_ [] [] l =
      List.intercalate ['/']
        (l.map fun v => if v = def_ then ToUpper cm v else ToLower cm v) := by
  cases l with
  | nil => simp [buildOptions, List.intercalate, List.intersperse]
  | cons v rest =>
    rw [List.map_cons, intercalate_slash]
    simp only [buildOptions, buildOptions_slash, List.map_map, List.nil_append, List.append_nil]
    rfl

/-- The loop looks at the fields `Prompt`, `Allowed`, `Default` and
`AllowEmpty` only. -/
theorem chooseLoop_congr (cm : CaseTable) (o1 o2 : Options) (M : Int) (s : Reader)
    (hP : o1.Prompt = o2.Prompt) (hA : o1.Allowed = o2.Allowed) (hD : o1.Default = o2.Default)
    (hE : o1.AllowEmpty = o2.AllowEmpty) :
    ∀ (fuel : Nat) (a : Int) (pos : Nat) (w : Writer),
      chooseLoop cm o1 M s fuel a pos w = chooseLoop cm o2 M s fuel a pos w := by
  intro fuel
  induction fuel with
  | zero => intro a pos w; rfl
  | succ fuel ih =>
    intro a pos w
    have hw : writePrompt cm o1 w = writePrompt cm o2 w := by
      unfold writePrompt
      rw [hP, hA, hD]
    rw [chooseLoop_succ, chooseLoop_succ, hw, hA, hD, hE]
    simp only [ih]

/-- Without a prompt the writer is left alone. -/
theorem writePrompt_iterate_nil (cm : CaseTable) (o : Options) (hprompt : o.Prompt = [])
    (k : Nat) (w : Writer) : (writePrompt cm o)^[k] w = w := by
  have h1 : writePrompt cm o = id := by
    funext x
    simp [writePrompt, hprompt]
  rw [h1, Function.iterate_id]
  rfl

/-- What the loop returns: an entry of `Allowed` read from the last line, or
`Default` on a blank last line; with an error, the empty string. -/
theorem chooseLoop_result (cm : CaseTable) (o : Options) (M : Int) (s : Reader) :
    ∀ (fuel : Nat) (a : Int) (pos : Nat) (w : Writer) (out : Outcome),
      chooseLoop cm o M s fuel a pos w = some out →
      (out.err = none → ∃ text, 1 ≤ out.reads ∧ s (out.reads - 1) = ScanResult.line text ∧
        ((out.ans ∈ o.Allowed ∧ out.ans = ToLower cm (Trim text cutset)) ∨
          (out.ans = o.Default ∧ blank text ∧ (o.AllowEmpty = true ∨ o.Default ≠ [])))) ∧
      (out.err ≠ none → out.ans = []) := by
  intro fuel
  induction fuel with
  | zero => intro a pos w out h; simp [chooseLoop] at h
  | succ fuel ih =>
    intro a pos w out h
    rw [chooseLoop_succ] at h
    cases hs : s pos with
    | fail err =>
      rw [hs] at h
      simp only [Option.some.injEq] at h
      subst h
      simp
    | line text =>
      rw [hs] at h
      simp only [] at h
      split_ifs at h with h1 h2 h3
      · simp only [Option.some.injEq] at h
        subst h
        refine ⟨fun _ => ⟨text, by simp, by simpa using hs, Or.inr ⟨rfl, ?_, h1.2⟩⟩, by simp⟩
        exact (ToLower_eq_nil cm _).1 h1.1
      · simp only [Option.some.injEq] at h
        subst h
        exact ⟨fun _ => ⟨text, by simp, by simpa using hs,
          Or.inl ⟨(rangeAllowed_iff _ _).1 h2, rfl⟩⟩, by simp⟩
      · simp only [Option.some.injEq] at h
        subst h
        simp
      · exact ih (a + 1) (pos + 1) (writePrompt cm o w) out h

/-- When the reader does not itself fail with `errGiveUp`, the loop returns
`errGiveUp` only at the limit. -/
theorem chooseLoop_giveUp_reads (cm : CaseTable) (o : Options) (M : Int) (s : Reader)
    (hstream : ∀ i, s i ≠ ScanResult.fail GoError.errGiveUp) :
    ∀ (fuel : Nat) (a : Int) (pos : Nat) (w : Writer) (out : Outcome), a < M →
      chooseLoop cm o M s fuel a pos w = some out → out.err = some GoError.errGiveUp →
      (out.reads : Int) = pos + (M - a) := by
  intro fuel
  induction fuel with
  | zero => intro a pos w out _ h; simp [chooseLoop] at h
  | succ fuel ih =>
    intro a pos w out ha h he
    rw [chooseLoop_succ] at h
    cases hs : s pos with
    | fail err =>
      rw [hs] at h
      simp only [Option.some.injEq] at h
      subst h
      simp only [Option.some.injEq] at he
      exact absurd (he ▸ hs) (hstream pos)
    | line text =>
      rw [hs] at h
      simp only [] at h
      split_ifs at h with h1 h2 h3
      · simp only [Option.some.injEq] at h
        subst h
        simp at he
      · simp only [Option.some.injEq] at h
        subst h
        simp at he
      · simp only [Option.some.injEq] at h
        subst h
        push_cast
        omega
      · have := ih (a + 1) (pos + 1) (writePrompt cm o w) out (by omega) h he
        rw [this]
        push_cast
        ring

/-- `Choose` gives up after `N` scans when each of the first `N` lines is
rejected. -/
theorem Choose_giveUp_of_rejected (cm : CaseTable) (stdout : Writer) (o : Options) (r : Reader)
    (hfrom : o.From = some r)
    (hrej : ∀ i, i < attemptLimit o → ∃ text, r i = ScanResult.line text ∧ rejected cm o text) :
    ∃ w, Choose cm stdout o = some ⟨[], some GoError.errGiveUp, attemptLimit o, w⟩ := by
  have hN := attemptLimit_pos o
  rw [Choose_reach cm stdout o r hfrom (attemptLimit o) hN le_rfl (fun i hi => hrej i (by omega))]
  obtain ⟨text, ht, hr1, hr2⟩ := hrej (attemptLimit o - 1) (by omega)
  have e : attemptLimit o - attemptLimit o + 1 = 0 + 1 := by omega
  have h3 : ((attemptLimit o - 1 : Nat) : Int) + 1 ≥ (attemptLimit o : Int) := by omega
  rw [e, chooseLoop_succ, ht]
  simp only [hr1, hr2, h3, if_false, if_true, Bool.false_eq_true]
  have e2 : attemptLimit o - 1 + 1 = attemptLimit o := by omega
  rw [e2]
  exact ⟨_, rfl⟩

/-- The result of `Choose` without a reader. -/
theorem nil_from_result (cm : CaseTable) (stdout : Writer) (o : Options) (hfrom : o.From = none) :
    Choose cm stdout o = some ⟨[], some GoError.errNilFrom, 0, o.To.getD stdout⟩ := by
  unfold Choose
  simp only [hfrom]

/-! ### The scanner always returns -/

/-- The indices of a scanner are in range: `s.end ≤ len(s.buf)`. -/
def Scanner.inRange (s : Scanner) : Prop := s.start + s.held.length ≤ s.bufLen

/-- What bounds the passes of `Scan`: the bytes left in the reader, and one
more while its end is not met. -/
def Scanner.left (s : Scanner) : Nat :=
  (s.r.s.length - s.r.i) + (if s.err = none then 1 else 0)

theorem ScanLines_advance_le (data : Str) (atEOF : Bool) :
    (ScanLines data atEOF).1 ≤ data.length := by
  unfold ScanLines
  split_ifs with h1 h2 h3
  · exact Nat.zero_le _
  · exact List.indexOf_lt_length.2 h2
  · exact le_rfl
  · exact Nat.zero_le _

theorem trySplit_keeps (s : Scanner) (h : s.inRange) :
    s.trySplit.1.inRange ∧ s.trySplit.1.r = s.r ∧ s.trySplit.1.err = s.err := by
  unfold Scanner.trySplit
  split_ifs with h1
  · have hle := ScanLines_advance_le s.held (decide (s.err ≠ none))
    unfold Scanner.inRange at h ⊢
    rcases hsl : ScanLines s.held (decide (s.err ≠ none)) with ⟨advance, _ | token⟩
    · rw [hsl] at hle
      refine ⟨?_, rfl, rfl⟩
      simp only [List.length_drop]
      simp only [] at hle
      omega
    · rw [hsl] at hle
      refine ⟨?_, rfl, rfl⟩
      simp only [List.length_drop]
      simp only [] at hle
      omega
  · exact ⟨h, rfl, rfl⟩

theorem shift_keeps (s : Scanner) (h : s.inRange) :
    s.shift.inRange ∧ s.shift.r = s.r ∧ s.shift.err = s.err := by
  unfold Scanner.shift Scanner.inRange at *
  split_ifs
  · exact ⟨by simp only []; omega, rfl, rfl⟩
  · exact ⟨h, rfl, rfl⟩

theorem grow_room (s : Scanner) (h : s.inRange)
    (hfull : ¬ (s.start + s.held.length = s.bufLen ∧ s.bufLen ≥ MaxScanTokenSize)) :
    s.grow.start + s.grow.held.length < s.grow.bufLen ∧ s.grow.r = s.r ∧
      s.grow.err = s.err := by
  unfold Scanner.grow
  unfold Scanner.inRange at h
  by_cases h4 : s.start + s.held.length = s.bufLen
  · have h5 : ¬ (s.bufLen ≥ MaxScanTokenSize) := fun h6 => hfull ⟨h4, h6⟩
    rw [if_pos h4]
    refine ⟨?_, rfl, rfl⟩
    simp only [MaxScanTokenSize, startBufSize] at h5 ⊢
    by_cases h7 : s.bufLen * 2 = 0
    · rw [if_pos h7]; omega
    · rw [if_neg h7]; omega
  · rw [if_neg h4]
    exact ⟨by omega, rfl, rfl⟩

theorem readMore_less (s : Scanner) (hroom : s.start + s.held.length < s.bufLen)
    (he : s.err = none) : s.readMore.inRange ∧ s.readMore.left < s.left := by
  unfold Scanner.readMore StringsReader.Read
  by_cases h6 : s.r.i ≥ s.r.s.length
  · rw [if_pos h6]
    simp only [Scanner.inRange, Scanner.left, he, List.append_nil, if_true]
    constructor
    · omega
    · simp
  · rw [if_neg h6]
    simp only [Scanner.inRange, Scanner.left, he, List.length_append, List.length_take,
      List.length_drop, if_true]
    constructor <;> omega

theorem fill_keeps (s : Scanner) (h : s.inRange) (he : s.err = none) :
    s.fill.1.inRange ∧ (s.fill.2 = false → s.fill.1.left < s.left) := by
  obtain ⟨k1, k2, k3⟩ := shift_keeps s h
  unfold Scanner.fill
  by_cases h2 : s.shift.start + s.shift.held.length = s.shift.bufLen ∧
      s.shift.bufLen ≥ MaxScanTokenSize
  · rw [if_pos h2]
    exact ⟨k1, fun hc => by simp at hc⟩
  · rw [if_neg h2]
    obtain ⟨g1, g2, g3⟩ := grow_room s.shift k1 h2
    obtain ⟨r1, r2⟩ := readMore_less s.shift.grow g1 (by rw [g3, k3, he])
    refine ⟨r1, fun _ => ?_⟩
    have e : s.shift.grow.left = s.left := by
      unfold Scanner.left
      rw [g2, g3, k2, k3]
    simp only []
    omega

/-- With passes for the bytes left, the loop of `Scan` returns, and leaves the
indices in range. -/
theorem scanLoop_returns :
    ∀ (fuel : Nat) (s : Scanner), s.inRange → s.left < fuel →
      ∃ b s1, Scanner.scanLoop fuel s = some (b, s1) ∧ s1.inRange := by
  intro fuel
  induction fuel with
  | zero => intro s _ h; omega
  | succ fuel ih =>
    intro s hr hl
    obtain ⟨k1, k2, k3⟩ := trySplit_keeps s hr
    unfold Scanner.scanLoop
    rcases hts : s.trySplit with ⟨s1, _ | _⟩
    · rw [hts] at k1 k2 k3
      simp only [] at k1 k2 k3 ⊢
      split_ifs with he
      · exact ⟨_, _, rfl, by unfold Scanner.inRange; simp⟩
      · have he1 : s1.err = none := by simpa using he
        obtain ⟨f1, f2⟩ := fill_keeps s1 k1 he1
        rcases hf : s1.fill with ⟨s2, _ | _⟩
        · rw [hf] at f1 f2
          simp only [] at f1 f2 ⊢
          have hl2 : s1.left = s.left := by
            unfold Scanner.left
            rw [k2, k3]
          exact ih s2 f1 (by have := f2 trivial; omega)
        · rw [hf] at f1
          exact ⟨_, _, rfl, f1⟩
    · rw [hts] at k1
      exact ⟨_, _, rfl, k1⟩

/-- `Scan` returns. -/
theorem Scan_returns (s : Scanner) (h : s.inRange) :
    ∃ b s1, s.Scan = some (b, s1) ∧ s1.inRange := by
  unfold Scanner.Scan
  apply scanLoop_returns _ s h
  unfold Scanner.left
  split_ifs <;> omega

/-- A scanner exists after any number of scans: `scanOutcomes` never falls
back on its last case. -/
theorem scannerAfter_returns (r : StringsReader) (n : Nat) :
    ∃ s, scannerAfter r n = some s ∧ s.inRange := by
  induction n with
  | zero => exact ⟨_, rfl, by unfold Scanner.inRange NewScanner; simp⟩
  | succ n ih =>
    obtain ⟨s, hs, hr⟩ := ih
    obtain ⟨b, s1, h1, h2⟩ := Scan_returns s hr
    exact ⟨s1, by simp only [scannerAfter, hs, h1], h2⟩

/-! ## The claims -/

/-- C1, at the input `Allowed = ["A"]` with the single line `A`: the trimmed
line is not empty and equals the entry when case is ignored, yet `Choose`
does not return `a`; it gives up after five scans. -/
theorem choose_upper_entry_gives_up :
    Trim "A".toList cutset ≠ [] ∧
      (∃ v, v ∈ optUpperEntry.Allowed ∧ eqIgnoreCase asciiCase (Trim "A".toList cutset) v) ∧
      Choose asciiCase emptyBuffer optUpperEntry =
        some ⟨[], some GoError.errGiveUp, 5, emptyBuffer⟩ :=
  ⟨by decide, ⟨"A".toList, by decide, by decide⟩, by decide⟩

/-- C2: when each of the first `N` lines is not blank and equals no entry of
`Allowed` with case ignored, `Choose` returns the empty string and `errGiveUp`
after exactly `N` scans, for every `Default`, `AllowEmpty` and later line. -/
theorem giveUp_at_limit (cm : CaseTable) (hidem : ∀ c, cm.lower (cm.lower c) = cm.lower c)
    (stdout : Writer) (o : Options) (r : Reader) (hfrom : o.From = some r)
    (hlines : ∀ i, i < attemptLimit o → ∃ text, r i = ScanResult.line text ∧ ¬ blank text ∧
      ∀ v, v ∈ o.Allowed → ¬ eqIgnoreCase cm (Trim text cutset) v) :
    ∃ w, Choose cm stdout o = some ⟨[], some GoError.errGiveUp, attemptLimit o, w⟩ := by
  have hN := attemptLimit_pos o
  have hrej : ∀ i, i < attemptLimit o → ∃ text, r i = ScanResult.line text ∧ rejected cm o text := by
    intro i hi
    obtain ⟨text, ht, hb, hv⟩ := hlines i hi
    exact ⟨text, ht, rejected_of_invalid cm o text hb (invalid_of_not_eqIgnoreCase cm hidem o text hv)⟩
  rw [Choose_reach cm stdout o r hfrom (attemptLimit o) hN le_rfl (fun i hi => hrej i (by omega))]
  obtain ⟨text, ht, hr1, hr2⟩ := hrej (attemptLimit o - 1) (by omega)
  have e : attemptLimit o - attemptLimit o + 1 = 0 + 1 := by omega
  have h3 : ((attemptLimit o - 1 : Nat) : Int) + 1 ≥ (attemptLimit o : Int) := by omega
  rw [e, chooseLoop_succ, ht]
  simp only [hr1, hr2, h3, if_false, if_true, Bool.false_eq_true]
  have e2 : attemptLimit o - 1 + 1 = attemptLimit o := by omega
  rw [e2]
  exact ⟨_, rfl⟩

/-- The give-up limit on the test with `MaxAttempts: 2`, a default and
`AllowEmpty`: two wrong answers, two scans, `errGiveUp`. -/
theorem giveUp_at_limit_witness :
    ∃ w, Choose asciiCase emptyBuffer optGiveUp = some ⟨[], some GoError.errGiveUp, 2, w⟩ :=
  giveUp_at_limit asciiCase asciiCase_lower_idem emptyBuffer optGiveUp
    (newReader ["x".toList, "x".toList, "x".toList, "a".toList]) rfl (by
      intro i hi
      have hi2 : i < 2 := hi
      interval_cases i
      · exact ⟨"x".toList, rfl, by decide, by decide⟩
      · exact ⟨"x".toList, rfl, by decide, by decide⟩)

/-- C3, at the input `From = strings.NewReader("\nfoo\nbar")`, `Default = "a"`:
the first line is blank and `Choose` returns `a` after one scan, but that scan
has taken all eight bytes from `From`, the later lines `foo` and `bar`
included; they are consumed. -/
theorem blank_line_reads_ahead :
    optReadAhead.Default ≠ [] ∧
      scanOutcomes (stringsNewReader "\nfoo\nbar".toList) 0 = ScanResult.line [] ∧
      Choose asciiCase emptyBuffer optReadAhead = some ⟨"a".toList, none, 1, emptyBuffer⟩ ∧
      fromAfter (stringsNewReader "\nfoo\nbar".toList) 1 = some ⟨"\nfoo\nbar".toList, 8⟩ ∧
      "\nfoo\nbar".toList.length = 8 := by
  decide

/-- C3, amended: with `AllowEmpty` set or `Default` not empty, if the first
`k - 1` lines are neither blank nor valid and the `k`-th is blank, `Choose`
returns `Default` and a nil error after exactly `k` scans, so it scans no
later line, also when the empty string is an entry of `Allowed`. -/
theorem blank_returns_default (cm : CaseTable) (stdout : Writer) (o : Options) (r : Reader)
    (hfrom : o.From = some r) (hde : o.AllowEmpty = true ∨ o.Default ≠ [])
    (k : Nat) (hk1 : 1 ≤ k) (hkN : k ≤ attemptLimit o)
    (hprev : ∀ i, i < k - 1 → ∃ text, r i = ScanResult.line text ∧ ¬ blank text ∧
      invalid cm o text)
    (hblank : ∃ text, r (k - 1) = ScanResult.line text ∧ blank text) :
    ∃ w, Choose cm stdout o = some ⟨o.Default, none, k, w⟩ := by
  rw [Choose_reach cm stdout o r hfrom k hk1 hkN (fun i hi => by
    obtain ⟨text, ht, hb, hv⟩ := hprev i hi
    exact ⟨text, ht, rejected_of_invalid cm o text hb hv⟩)]
  obtain ⟨text, ht, hb⟩ := hblank
  have h1 : ToLower cm (Trim text cutset) = [] := (ToLower_eq_nil cm _).2 hb
  rw [chooseLoop_succ, ht]
  simp only [h1, hde, and_self, if_true]
  have e2 : k - 1 + 1 = k := by omega
  rw [e2]
  exact ⟨_, rfl⟩

/-- A wrong answer followed by a line of two spaces, with the empty string
among the entries: the default is returned after two scans. -/
theorem blank_returns_default_witness :
    ∃ w, Choose asciiCase emptyBuffer optBlankSecond = some ⟨"a".toList, none, 2, w⟩ :=
  blank_returns_default asciiCase emptyBuffer optBlankSecond
    (newReader ["x".toList, "  ".toList]) rfl (Or.inr (by decide)) 2 (by decide) (by decide)
    (by
      intro i hi
      have hi1 : i < 1 := hi
      interval_cases i
      exact ⟨"x".toList, rfl, by decide, by decide⟩)
    ⟨"  ".toList, rfl, by decide⟩

/-- C4: for `1 ≤ k ≤ N`, if the first `k - 1` lines are neither blank nor
valid and the `k`-th line, trimmed and lowercased, is not empty and is an
entry of `Allowed`, `Choose` returns that trimmed, lowercased line and a nil
error; `k = N` included. -/
theorem valid_on_kth_attempt (cm : CaseTable) (stdout : Writer) (o : Options) (r : Reader)
    (hfrom : o.From = some r) (k : Nat) (hk1 : 1 ≤ k) (hkN : k ≤ attemptLimit o)
    (hprev : ∀ i, i < k - 1 → ∃ text, r i = ScanResult.line text ∧ ¬ blank text ∧
      invalid cm o text)
    (text : Str) (hline : r (k - 1) = ScanResult.line text)
    (hne : ToLower cm (Trim text cutset) ≠ [])
    (hmem : ToLower cm (Trim text cutset) ∈ o.Allowed) :
    ∃ w, Choose cm stdout o = some ⟨ToLower cm (Trim text cutset), none, k, w⟩ := by
  rw [Choose_reach cm stdout o r hfrom k hk1 hkN (fun i hi => by
    obtain ⟨t, ht, hb, hv⟩ := hprev i hi
    exact ⟨t, ht, rejected_of_invalid cm o t hb hv⟩)]
  have h2 : rangeAllowed (ToLower cm (Trim text cutset)) o.Allowed = true :=
    (rangeAllowed_iff _ _).2 hmem
  rw [chooseLoop_succ, hline]
  simp only [hne, h2, false_and, if_false, if_true]
  have e2 : k - 1 + 1 = k := by omega
  rw [e2]
  exact ⟨_, rfl⟩

/-- The test with `MaxAttempts: 7`: six wrong answers, then `a` on the seventh
and last attempt. -/
theorem valid_on_kth_attempt_witness :
    ∃ w, Choose asciiCase emptyBuffer optSeventh = some ⟨"a".toList, none, 7, w⟩ :=
  valid_on_kth_attempt asciiCase emptyBuffer optSeventh
    (newReader ["x".toList, "x".toList, "x".toList, "x".toList, "x".toList, "x".toList,
      "a".toList]) rfl 7 (by decide) (by decide)
    (by
      intro i hi
      have hi6 : i < 6 := hi
      interval_cases i <;> exact ⟨"x".toList, rfl, by decide, by decide⟩)
    "a".toList rfl (by decide) (by decide)

/-- C5, at the input `Default = "A"` with an empty reader: `Choose` returns
`A` with a nil error, and `A` is not its own lowercasing. -/
theorem choose_returns_default_verbatim :
    Choose asciiCase emptyBuffer optUpperDefault = some ⟨"A".toList, none, 1, emptyBuffer⟩ ∧
      ToLower asciiCase "A".toList ≠ "A".toList := by
  decide

/-- C6: when `From` is nil, `Choose` returns the empty string and `errNilFrom`,
has made no scan, and leaves the writer as it was. -/
theorem nil_from_fails_fast (cm : CaseTable) (stdout : Writer) (o : Options)
    (hfrom : o.From = none) :
    Choose cm stdout o = some ⟨[], some GoError.errNilFrom, 0, o.To.getD stdout⟩ := by
  unfold Choose
  simp only [hfrom]

/-- A nil `From` with a non-empty `Prompt`: the buffer stays empty. -/
theorem nil_from_fails_fast_witness :
    optNilFrom.Prompt ≠ [] ∧
      Choose asciiCase emptyBuffer optNilFrom =
        some ⟨[], some GoError.errNilFrom, 0, emptyBuffer⟩ :=
  ⟨by decide, nil_from_fails_fast asciiCase emptyBuffer optNilFrom rfl⟩

/-- C7, at the input `To = errWriter{}`, `Prompt = "PROMPT"`, `Allowed = ["a"]`
with the line `a`: printing the prompt fails with `errWrite`, yet `Choose`
scans a line and returns `a` with a nil error. -/
theorem choose_ignores_write_error :
    (Fprint errWriter
        (buildPrompt asciiCase optErrWriter.Prompt optErrWriter.Default optErrWriter.Allowed)).2 =
        some (GoError.stream 1) ∧
      Choose asciiCase emptyBuffer optErrWriter = some ⟨"a".toList, none, 1, errWriter⟩ := by
  decide

/-- C8: for `1 ≤ k ≤ N`, if the first `k - 1` lines are neither blank nor
valid and the `k`-th scan fails with `e`, `Choose` returns the empty string
and exactly `e`, having made `k` scans. -/
theorem read_failure_is_fatal (cm : CaseTable) (stdout : Writer) (o : Options) (r : Reader)
    (hfrom : o.From = some r) (k : Nat) (hk1 : 1 ≤ k) (hkN : k ≤ attemptLimit o)
    (hprev : ∀ i, i < k - 1 → ∃ text, r i = ScanResult.line text ∧ ¬ blank text ∧
      invalid cm o text)
    (e : GoError) (hfail : r (k - 1) = ScanResult.fail e) :
    ∃ w, Choose cm stdout o = some ⟨[], some e, k, w⟩ := by
  rw [Choose_reach cm stdout o r hfrom k hk1 hkN (fun i hi => by
    obtain ⟨t, ht, hb, hv⟩ := hprev i hi
    exact ⟨t, ht, rejected_of_invalid cm o t hb hv⟩)]
  rw [chooseLoop_succ, hfail]
  have e2 : k - 1 + 1 = k := by omega
  simp only [e2]
  exact ⟨_, rfl⟩

/-- A wrong answer followed by a failing scan: the error of the reader comes
back after two scans. -/
theorem read_failure_is_fatal_witness :
    ∃ w, Choose asciiCase emptyBuffer optReadError = some ⟨[], some (GoError.stream 2), 2, w⟩ :=
  read_failure_is_fatal asciiCase emptyBuffer optReadError
    (ofLines [ScanResult.line "x".toList, ScanResult.fail (GoError.stream 2)]) rfl 2
    (by decide) (by decide)
    (by
      intro i hi
      have hi1 : i < 1 := hi
      interval_cases i
      exact ⟨"x".toList, rfl, by decide, by decide⟩)
    (GoError.stream 2) rfl

/-- C9, at the input `To = errWriter{}`, `Prompt = "PROMPT"`,
`Allowed = ["a", "b"]`, `Default = "a"` with the lines `x` and `a`: `Choose`
succeeds at the second scan, and the writer holds nothing, not the prompt
twice. -/
theorem failing_writer_holds_no_prompt :
    optErrWriterRetry.Prompt ≠ [] ∧
      Choose asciiCase emptyBuffer optErrWriterRetry = some ⟨"a".toList, none, 2, errWriter⟩ ∧
      errWriter.buf ≠ errWriter.buf ++
        (List.replicate 2 (buildPrompt asciiCase optErrWriterRetry.Prompt
          optErrWriterRetry.Default optErrWriterRetry.Allowed)).flatten := by
  decide

/-- C9, amended: with a reader that never fails, a non-empty `Prompt` and a writer that
accepts what it is given, `Choose` returns after `k` scans, `1 ≤ k ≤ N`, and
what it has written is `buildPrompt(Prompt, Default, Allowed)` repeated `k`
times with nothing in between, whatever the result. -/
theorem prompt_once_per_attempt (cm : CaseTable) (stdout : Writer) (o : Options) (r : Reader)
    (hfrom : o.From = some r) (hprompt : o.Prompt ≠ [])
    (hinput : ∀ i, ∃ text, r i = ScanResult.line text)
    (hto : (o.To.getD stdout).err = none) :
    ∃ out, Choose cm stdout o = some out ∧ 1 ≤ out.reads ∧ out.reads ≤ attemptLimit o ∧
      out.out.buf = (o.To.getD stdout).buf ++
        (List.replicate out.reads (buildPrompt cm o.Prompt o.Default o.Allowed)).flatten := by
  have _ := hinput
  have hN := attemptLimit_pos o
  obtain ⟨out, ho, h1, h2, h3⟩ := chooseLoop_spec cm o (attemptLimit o) r (attemptLimit o) 0 0
    (o.To.getD stdout) (by omega) (by omega)
  refine ⟨out, by rw [Choose_eq_loop cm stdout o r hfrom]; exact ho, by omega, by
    simpa using h2, ?_⟩
  rw [h3, writePrompt_iterate cm o hprompt _ _ hto]
  simp

/-- The test "options appended to prompt". -/
theorem prompt_once_per_attempt_witness :
    ∃ out, Choose asciiCase emptyBuffer optWithPrompt = some out ∧ 1 ≤ out.reads ∧
      out.reads ≤ 5 ∧
      out.out.buf = [] ++ (List.replicate out.reads "PROMPT [A/b]: ".toList).flatten :=
  prompt_once_per_attempt asciiCase emptyBuffer optWithPrompt
    (newReader ["x".toList, "a".toList]) rfl (by decide)
    (fun i => ⟨_, newReader_apply ["x".toList, "a".toList] i⟩) rfl

/-- C10, at the input `buildPrompt("Choose", "A", "a")`: the entry equals the
default when case is ignored, and `buildPrompt` lowercases it, where the
prompt worded by the specification has it uppercased. -/
theorem buildPrompt_compares_case_sensitively :
    buildPrompt asciiCase "Choose".toList "A".toList ["a".toList] = "Choose [a]: ".toList ∧
      promptIgnoringCase asciiCase "Choose".toList "A".toList ["a".toList] =
        "Choose [A]: ".toList := by
  decide

/-- C11: `buildPrompt` returns the prompt, `" ["`, the entries of `Allowed`
in their order joined by single `/`, and `"]: "`; an entry identical to
`Default` is uppercased and every other entry lowercased; an empty `Allowed`
gives `prompt + " []: "`; and `buildPrompt("Choose", "a", "a", "b", "c")` is
`"Choose [A/b/c]: "`. -/
theorem buildPrompt_layout (cm : CaseTable) (prompt def_ : Str) (allowed : List Str) :
    buildPrompt cm prompt def_ allowed =
        prompt ++ " [".toList ++
          List.intercalate "/".toList
            (allowed.map fun v => if v = def_ then ToUpper cm v else ToLower cm v) ++
          "]: ".toList ∧
      buildPrompt cm prompt def_ [] = prompt ++ " []: ".toList ∧
      buildPrompt asciiCase "Choose".toList "a".toList ["a".toList, "b".toList, "c".toList] =
        "Choose [A/b/c]: ".toList := by
  refine ⟨?_, ?_, by decide⟩
  · unfold buildPrompt
    rw [buildOptions_eq_intercalate]
    rfl
  · unfold buildPrompt
    simp [buildOptions]

/-- C12: for every `m < 1`, `Choose` with `MaxAttempts = m` has the outcome
(answer, error, scans, output) of `Choose` with `MaxAttempts = 5`, the other
fields being equal. -/
theorem maxAttempts_below_one_means_five (cm : CaseTable) (stdout : Writer) (o : Options)
    (m : Int) (hm : m < 1) :
    Choose cm stdout { o with MaxAttempts := m } =
      Choose cm stdout { o with MaxAttempts := 5 } := by
  unfold Choose
  cases hf : o.From with
  | none => simp only [hf]
  | some r =>
    have h5 : ¬ ((5 : Int) < 1) := by decide
    simp only [hf, hm, h5, if_true, if_false]
    exact chooseLoop_congr cm _ _ 5 r rfl rfl rfl rfl _ _ _ _

/-- Six wrong answers before the right one: with `MaxAttempts = -3`, as with
`MaxAttempts = 5`, `Choose` gives up after five scans. -/
theorem maxAttempts_below_one_means_five_witness :
    (-3 : Int) < 1 ∧
      Choose asciiCase emptyBuffer { optSeventh with MaxAttempts := -3 } =
        Choose asciiCase emptyBuffer { optSeventh with MaxAttempts := 5 } ∧
      Choose asciiCase emptyBuffer { optSeventh with MaxAttempts := 5 } =
        some ⟨[], some GoError.errGiveUp, 5, emptyBuffer⟩ :=
  ⟨by decide, maxAttempts_below_one_means_five asciiCase emptyBuffer optSeventh (-3) (by decide),
    by decide⟩

/-- C13, at the input `AllowEmpty = true`, `Default = "a"` with an empty
reader: the first line is blank, and `Choose` returns `a`, not the empty
string. -/
theorem allowEmpty_with_default_returns_default :
    optAllowEmptyDefault.AllowEmpty = true ∧ blank [] ∧
      Choose asciiCase emptyBuffer optAllowEmptyDefault =
        some ⟨"a".toList, none, 1, emptyBuffer⟩ ∧
      "a".toList ≠ [] := by
  decide

/-- C13, amended: with `AllowEmpty` set and a blank first line, `Choose`
returns `Default` (the empty string when `Default` is empty) and a nil error
after one scan. -/
theorem allowEmpty_blank_returns_default (cm : CaseTable) (stdout : Writer) (o : Options)
    (r : Reader) (hfrom : o.From = some r) (hae : o.AllowEmpty = true)
    (text : Str) (hline : r 0 = ScanResult.line text) (hblank : blank text) :
    ∃ w, Choose cm stdout o = some ⟨o.Default, none, 1, w⟩ := by
  rw [Choose_reach cm stdout o r hfrom 1 le_rfl (attemptLimit_pos o) (fun i hi => by omega)]
  have h1 : ToLower cm (Trim text cutset) = [] := (ToLower_eq_nil cm _).2 hblank
  have e : attemptLimit o - 1 + 1 = (attemptLimit o - 1) + 1 := rfl
  rw [e, chooseLoop_succ]
  simp only [Nat.sub_self, hline, h1, hae, true_or, and_self, if_true]
  exact ⟨_, rfl⟩

/-- The test "allowed empty": nothing to read, `AllowEmpty` set, no default;
the empty string comes back. -/
theorem allowEmpty_blank_returns_default_witness :
    ∃ w, Choose asciiCase emptyBuffer optAllowEmpty = some ⟨[], none, 1, w⟩ :=
  allowEmpty_blank_returns_default asciiCase emptyBuffer optAllowEmpty (newReader []) rfl rfl
    [] rfl (by decide)

/-- C14: with an empty `Prompt`, `Choose` returns and leaves the writer as it
was, whatever is read and whatever the outcome. -/
theorem empty_prompt_writes_nothing (cm : CaseTable) (stdout : Writer) (o : Options)
    (r : Reader) (hfrom : o.From = some r) (hprompt : o.Prompt = []) :
    ∃ out, Choose cm stdout o = some out ∧ out.out = o.To.getD stdout := by
  have hN := attemptLimit_pos o
  obtain ⟨out, ho, _, _, h3⟩ := chooseLoop_spec cm o (attemptLimit o) r (attemptLimit o) 0 0
    (o.To.getD stdout) (by omega) (by omega)
  refine ⟨out, by rw [Choose_eq_loop cm stdout o r hfrom]; exact ho, ?_⟩
  rw [h3, writePrompt_iterate_nil cm o hprompt]

/-- Two wrong answers without a prompt: the buffer is still empty. -/
theorem empty_prompt_writes_nothing_witness :
    optGiveUp.Prompt = [] ∧
      ∃ out, Choose asciiCase emptyBuffer optGiveUp = some out ∧ out.out = emptyBuffer :=
  ⟨rfl, empty_prompt_writes_nothing asciiCase emptyBuffer optGiveUp
    (newReader ["x".toList, "x".toList, "x".toList, "a".toList]) rfl rfl⟩

/-- C15, at the input `Allowed = [""]` with an empty reader, `AllowEmpty`
false and no default: the blank line is accepted, `Choose` returns the empty
string and a nil error after one scan. -/
theorem empty_entry_accepts_blank :
    optEmptyEntry.AllowEmpty = false ∧ optEmptyEntry.Default = [] ∧ blank [] ∧
      Choose asciiCase emptyBuffer optEmptyEntry = some ⟨[], none, 1, emptyBuffer⟩ := by
  decide

/-- C15, amended: with `AllowEmpty` false, `Default` empty and no empty entry
in `Allowed`: if each of the first `N` lines is blank, `Choose` returns
`errGiveUp` after `N` scans; and whatever is read, `Choose` returns and its
result is not the empty string with a nil error. -/
theorem blank_never_accepted (cm : CaseTable) (stdout : Writer) (o : Options) (r : Reader)
    (hfrom : o.From = some r) (hae : o.AllowEmpty = false) (hdef : o.Default = [])
    (hallowed : [] ∉ o.Allowed) :
    ((∀ i, i < attemptLimit o → ∃ text, r i = ScanResult.line text ∧ blank text) →
        ∃ w, Choose cm stdout o = some ⟨[], some GoError.errGiveUp, attemptLimit o, w⟩) ∧
      ∃ out, Choose cm stdout o = some out ∧ ¬ (out.ans = [] ∧ out.err = none) := by
  constructor
  · intro hlines
    apply Choose_giveUp_of_rejected cm stdout o r hfrom
    intro i hi
    obtain ⟨text, ht, hb⟩ := hlines i hi
    have h1 : ToLower cm (Trim text cutset) = [] := (ToLower_eq_nil cm _).2 hb
    refine ⟨text, ht, ?_, ?_⟩
    · simp [hae, hdef]
    · rw [h1]
      cases hr : rangeAllowed [] o.Allowed with
      | false => rfl
      | true => exact absurd ((rangeAllowed_iff _ _).1 hr) hallowed
  · have hN := attemptLimit_pos o
    obtain ⟨out, ho, _, _, _⟩ := chooseLoop_spec cm o (attemptLimit o) r (attemptLimit o) 0 0
      (o.To.getD stdout) (by omega) (by omega)
    refine ⟨out, by rw [Choose_eq_loop cm stdout o r hfrom]; exact ho, ?_⟩
    rintro ⟨hans, herr⟩
    obtain ⟨text, _, _, hcase⟩ := (chooseLoop_result cm o _ r _ _ _ _ out ho).1 herr
    rcases hcase with ⟨hmem, _⟩ | ⟨_, _, hde⟩
    · exact hallowed (hans ▸ hmem)
    · simp [hae, hdef] at hde

/-- The test "empty not allowed": two empty lines are read and `Choose` gives
up. -/
theorem blank_never_accepted_witness :
    ∃ w, Choose asciiCase emptyBuffer optEmptyNotAllowed =
      some ⟨[], some GoError.errGiveUp, 2, w⟩ :=
  (blank_never_accepted asciiCase emptyBuffer optEmptyNotAllowed (newReader [[], [], []])
    rfl rfl rfl (by decide)).1 (by
      intro i hi
      have hi2 : i < 2 := hi
      interval_cases i <;> exact ⟨[], rfl, by decide⟩)

/-- C16, at a reader whose first read fails with `errGiveUp`: the limit is 5
and `Choose` returns `errGiveUp` after one scan. -/
theorem reader_error_may_be_errGiveUp :
    attemptLimit optReaderGivesUp = 5 ∧
      Choose asciiCase emptyBuffer optReaderGivesUp =
        some ⟨[], some GoError.errGiveUp, 1, emptyBuffer⟩ := by
  decide

/-- C16, amended: with a reader, `Choose` returns after at least one and at
most `N` scans, for every input; and when no read fails with `errGiveUp`
itself, a result `errGiveUp` comes after exactly `N` scans. -/
theorem choose_terminates_within_limit (cm : CaseTable) (stdout : Writer) (o : Options)
    (r : Reader) (hfrom : o.From = some r) :
    ∃ out, Choose cm stdout o = some out ∧ 1 ≤ out.reads ∧ out.reads ≤ attemptLimit o ∧
      ((∀ i, r i ≠ ScanResult.fail GoError.errGiveUp) →
        out.err = some GoError.errGiveUp → out.reads = attemptLimit o) := by
  have hN := attemptLimit_pos o
  obtain ⟨out, ho, h1, h2, _⟩ := chooseLoop_spec cm o (attemptLimit o) r (attemptLimit o) 0 0
    (o.To.getD stdout) (by omega) (by omega)
  refine ⟨out, by rw [Choose_eq_loop cm stdout o r hfrom]; exact ho, by omega, by
    simpa using h2, ?_⟩
  intro hstream he
  have := chooseLoop_giveUp_reads cm o (attemptLimit o) r hstream _ _ _ _ out (by omega) ho he
  push_cast at this
  omega

/-- One line that matches no entry, then an exhausted input: the line and four
empty lines are scanned and `Choose` gives up. -/
theorem choose_terminates_within_limit_witness :
    Choose asciiCase emptyBuffer optUpperEntry =
        some ⟨[], some GoError.errGiveUp, 5, emptyBuffer⟩ ∧
      (∀ i, newReader ["A".toList] i ≠ ScanResult.fail GoError.errGiveUp) ∧
      ∃ out, Choose asciiCase emptyBuffer optUpperEntry = some out ∧ 1 ≤ out.reads ∧
        out.reads ≤ 5 ∧
        ((∀ i, newReader ["A".toList] i ≠ ScanResult.fail GoError.errGiveUp) →
          out.err = some GoError.errGiveUp → out.reads = 5) :=
  ⟨by decide,
    fun i h => by
      rw [newReader_apply] at h
      exact ScanResult.noConfusion h,
    choose_terminates_within_limit asciiCase emptyBuffer optUpperEntry
      (newReader ["A".toList]) rfl⟩

/-- C17: `Choose` returns; with a nil error its answer is an entry of
`Allowed` equal to the trimmed, lowercased last line read, or it is `Default`,
the last line read is blank and `AllowEmpty` is set or `Default` is not empty;
with a non-nil error its answer is the empty string. -/
theorem choose_returns_configured_value (cm : CaseTable) (stdout : Writer) (o : Options) :
    ∃ out, Choose cm stdout o = some out ∧
      (out.err = none → ∃ r text, o.From = some r ∧ 1 ≤ out.reads ∧
        r (out.reads - 1) = ScanResult.line text ∧
        ((out.ans ∈ o.Allowed ∧ out.ans = ToLower cm (Trim text cutset)) ∨
          (out.ans = o.Default ∧ blank text ∧ (o.AllowEmpty = true ∨ o.Default ≠ [])))) ∧
      (out.err ≠ none → out.ans = []) := by
  cases hf : o.From with
  | none =>
    refine ⟨_, nil_from_result cm stdout o hf, ?_, ?_⟩
    · intro h; simp at h
    · intro _; rfl
  | some r =>
    have hN := attemptLimit_pos o
    obtain ⟨out, ho, _, _, _⟩ := chooseLoop_spec cm o (attemptLimit o) r (attemptLimit o) 0 0
      (o.To.getD stdout) (by omega) (by omega)
    obtain ⟨hok, herr⟩ := chooseLoop_result cm o _ r _ _ _ _ out ho
    refine ⟨out, by rw [Choose_eq_loop cm stdout o r hf]; exact ho, ?_, herr⟩
    intro h
    obtain ⟨text, h1, h2, h3⟩ := hok h
    exact ⟨r, text, rfl, h1, h2, h3⟩

end Miles
